import Mathlib

/-!
Verification of the skills-api data-refresh pipeline: enrichment, the
staleness reconciler, the validation gate and the refresh orchestrator.
The definitions below are a shallow embedding of the TypeScript sources
(`scraper/scrape.ts`, `scraper/validate.ts`, `scheduler/refresh.ts`,
`routes/admin.ts`, `server.ts`).  Effectful parts (GitHub fetches, the
S3-backed verification cache, storage writes, module-level mutable state)
are modelled by explicit parameters and returned state.
-/

/-! ## Enrichment (scraper/scrape.ts) -/

/-- A raw skill scraped from the marketplace page. -/
structure ScrapedSkill where
  source : String
  skillId : String
  name : String
  installs : Nat
deriving DecidableEq

/-- A skill after enrichment with owner/repo/url/display name. -/
structure EnrichedSkill where
  source : String
  skillId : String
  name : String
  installs : Nat
  owner : String
  repo : String
  githubUrl : String
  displayName : String
deriving DecidableEq

/-- JavaScript `s.split(sep)` for a one-character separator, modelled via
`List.splitOn` on the character data (`"".split(sep)` gives `[""]`,
matching `List.splitOn`). -/
def jsSplit (sep : Char) (s : String) : List String :=
  (s.data.splitOn sep).map (fun cs => String.mk cs)

/-- Embedding of `word.charAt(0).toUpperCase() + word.slice(1)` from `formatDisplayName`. -/
def capitalizeWord (w : String) : String :=
  match w.data with
  | [] => ""
  | c :: rest => String.mk (Char.toUpper c :: rest)

/-- Embedding of `formatDisplayName` from scrape.ts: split on `-`, capitalize each word,
join with spaces. -/
def formatDisplayName (name : String) : String :=
  String.intercalate " " ((jsSplit '-' name).map capitalizeWord)

/-- Enrichment of one raw skill (the body of the `map` in `enrichSkills`):
`const parts = skill.source.split('/'); owner = parts[0] ?? ''; repo = parts[1] ?? ''`. -/
def enrichOne (sk : ScrapedSkill) : EnrichedSkill :=
  let parts := jsSplit '/' sk.source
  { source := sk.source
    skillId := sk.skillId
    name := sk.name
    installs := sk.installs
    owner := (parts.get? 0).getD ""
    repo := (parts.get? 1).getD ""
    githubUrl := "https://github.com/" ++ sk.source
    displayName := formatDisplayName sk.name }

/-- Embedding of `enrichSkills` from scrape.ts. -/
def enrichSkills (skills : List ScrapedSkill) : List EnrichedSkill :=
  skills.map enrichOne

/-- JavaScript `Set` insertion: add a key at the end unless already present. -/
def insKey (acc : List String) (k : String) : List String :=
  if k ∈ acc then acc else acc ++ [k]

/-- The element sequence of a JavaScript `Set` built by inserting the
elements of `l` in order: first occurrences, in encounter order. -/
def uniqueList (l : List String) : List String :=
  l.foldl insKey []

/-- JavaScript `Array.prototype.sort()` on strings (lexicographic). -/
def sortStrings (l : List String) : List String :=
  List.insertionSort (fun a b => a ≤ b) l

/-- Embedding of `getUniqueSources` from scrape.ts: distinct `source` values, sorted. -/
def getUniqueSources (skills : List ScrapedSkill) : List String :=
  sortStrings (uniqueList (skills.map (fun s => s.source)))

/-- Embedding of `getUniqueOwners` from scrape.ts: distinct first `/`-segments of the
sources, skipping empty owners, sorted. -/
def getUniqueOwners (skills : List ScrapedSkill) : List String :=
  sortStrings (uniqueList
    ((skills.map (fun s => ((jsSplit '/' s.source).get? 0).getD "")).filter
      (fun o => o != "")))

/-! ## Validator (scraper/validate.ts, `validateScrapedData`) -/

/-- The `stats` record of a validation result. -/
structure ValidationStats where
  skillCount : Nat
  sourceCount : Nat
  ownerCount : Nat
  avgInstalls : Int
deriving DecidableEq

/-- Embedding of `ValidationResult` from validate.ts. -/
structure ValidationResult where
  valid : Bool
  errors : List String
  warnings : List String
  stats : ValidationStats
deriving DecidableEq

/-- The canonical snapshot (`ScrapedData` from registry/types.ts). -/
structure ScrapedData where
  scrapedAt : String
  totalSkills : Nat
  totalSources : Nat
  totalOwners : Nat
  skills : List EnrichedSkill
deriving DecidableEq

/-- Embedding of `ValidationOptions` from validate.ts; all fields optional, defaults
applied inside `validateScrapedData`. -/
structure ValidationOptions where
  minSkillCount : Option Nat := none
  minSourceCount : Option Nat := none
  maxDropPercentage : Option ℚ := none
  previousData : Option ScrapedData := none
deriving DecidableEq

/-- Distinct-source count: `new Set(skills.map(s => s.source)).size`. -/
def sourceCountOf (skills : List EnrichedSkill) : Nat :=
  (uniqueList (skills.map (fun s => s.source))).length

/-- Distinct-owner count: `new Set(skills.map(s => s.owner)).size`. -/
def ownerCountOf (skills : List EnrichedSkill) : Nat :=
  (uniqueList (skills.map (fun s => s.owner))).length

/-- Embedding of `skills.reduce((sum, s) => sum + s.installs, 0)`. -/
def totalInstallsOf (skills : List EnrichedSkill) : Nat :=
  skills.foldl (fun sum s => sum + s.installs) 0

/-- The percentage drop from the previous skill count to the candidate:
`((previous - current) / previous) * 100`. -/
def dropPct (prevLen curLen : Nat) : ℚ :=
  (((prevLen : Int) - (curLen : Int) : Int) : ℚ) / ((prevLen : Int) : ℚ) * 100

/-- Rendering of JavaScript `x.toFixed(1)` for the drop percentage. -/
def fmtFixed1 (q : ℚ) : String :=
  let n : Int := round (q * 10)
  let sign := if n < 0 then "-" else ""
  let m := n.natAbs
  sign ++ toString (m / 10) ++ "." ++ toString (m % 10)

/-- Error message for a skill count below the minimum. -/
def minSkillMsg (n minN : Nat) : String :=
  "Skill count (" ++ toString n ++ ") below minimum threshold (" ++ toString minN ++
    "). This likely indicates a scraping failure."

/-- Error message for a source count below the minimum. -/
def minSourceMsg (n minN : Nat) : String :=
  "Source count (" ++ toString n ++ ") below minimum threshold (" ++ toString minN ++
    "). This likely indicates incomplete data."

/-- Error message for an empty scrape result. -/
def emptyMsg : String :=
  "No skills scraped. The page structure may have changed."

/-- Error message for too many malformed sampled skills. -/
def sampleMsg (malformed sampleSize : Nat) : String :=
  toString malformed ++ "/" ++ toString sampleSize ++
    " sampled skills have missing required fields. Data structure may have changed."

/-- Error message for a skill-count drop above the allowed ceiling. -/
def dropErrMsg (prevLen curLen : Nat) (maxDrop : ℚ) : String :=
  "Skill count dropped by " ++ fmtFixed1 (dropPct prevLen curLen) ++ "% (" ++
    toString prevLen ++ " → " ++ toString curLen ++
    "). This exceeds the maximum allowed drop of " ++ toString maxDrop ++ "%."

/-- Warning message for a moderate skill-count drop. -/
def dropWarnMsg (prevLen curLen : Nat) : String :=
  "Skill count dropped by " ++ fmtFixed1 (dropPct prevLen curLen) ++ "% (" ++
    toString prevLen ++ " → " ++ toString curLen ++ ")."

/-- Warning message for a large drop in total installs. -/
def installsWarnMsg : String :=
  "Total installs dropped significantly. This may indicate data issues."

/-- Warning message for a high duplicate-name ratio. -/
def dupWarnMsg (uniqueN totalN : Nat) : String :=
  "High duplicate name ratio detected (" ++ toString uniqueN ++ " unique / " ++
    toString totalN ++ " total)."

/-- Embedding of `!skill.source || !skill.skillId || !skill.name` for an in-bounds sample
element (a missing field is an empty string). -/
def isMalformed (s : EnrichedSkill) : Bool :=
  s.source == "" || s.skillId == "" || s.name == ""

/-- The sample-structure check of `validateScrapedData`: inspect the first
`min 100 n` skills; error when more than 10% are malformed. -/
def sampleCheck (skills : List EnrichedSkill) : List String :=
  let sampleSize := min 100 skills.length
  let malformedCount := ((skills.take sampleSize).filter isMalformed).length
  if (malformedCount : ℚ) > (sampleSize : ℚ) / 10 then
    [sampleMsg malformedCount sampleSize]
  else []

/-- The drop-percentage check of `validateScrapedData`: an error above the
ceiling, a warning above 10%, nothing otherwise (errors, warnings). -/
def dropCheck (prevLen curLen : Nat) (maxDrop : ℚ) : List String × List String :=
  if dropPct prevLen curLen > maxDrop then
    ([dropErrMsg prevLen curLen maxDrop], [])
  else if dropPct prevLen curLen > 10 then
    ([], [dropWarnMsg prevLen curLen])
  else ([], [])

/-- The total-installs comparison of `validateScrapedData`:
`totalInstalls < prevTotalInstalls * 0.5` yields a warning. -/
def installsCheck (prevTotal curTotal : Nat) : List String :=
  if (curTotal : ℚ) < (prevTotal : ℚ) / 2 then [installsWarnMsg] else []

/-- The duplicate-name check of `validateScrapedData`:
`uniqueNames.size < skills.length * 0.9` yields a warning. -/
def dupNameCheck (skills : List EnrichedSkill) : List String :=
  let uniqueNames := (uniqueList (skills.map (fun s => s.name))).length
  if (uniqueNames : ℚ) < (skills.length : ℚ) * 9 / 10 then
    [dupWarnMsg uniqueNames skills.length]
  else []

/-- Embedding of `validateScrapedData` from validate.ts. -/
def validateScrapedData (skills : List EnrichedSkill) (opts : ValidationOptions) :
    ValidationResult :=
  let minSkillCount := opts.minSkillCount.getD 1000
  let minSourceCount := opts.minSourceCount.getD 100
  let maxDropPercentage := opts.maxDropPercentage.getD 50
  let sourceCount := sourceCountOf skills
  let totalInstalls := totalInstallsOf skills
  let avgInstalls : ℚ :=
    if 0 < skills.length then (totalInstalls : ℚ) / (skills.length : ℚ) else 0
  let stats : ValidationStats :=
    ⟨skills.length, sourceCount, ownerCountOf skills, round avgInstalls⟩
  let e1 := if skills.length < minSkillCount then [minSkillMsg skills.length minSkillCount] else []
  let e2 := if sourceCount < minSourceCount then [minSourceMsg sourceCount minSourceCount] else []
  let e3 := if skills.length = 0 then [emptyMsg] else []
  let e4 := sampleCheck skills
  let prevChecks : (List String × List String) × List String :=
    match opts.previousData with
    | some prev =>
        if 0 < prev.skills.length then
          (dropCheck prev.skills.length skills.length maxDropPercentage,
           installsCheck (totalInstallsOf prev.skills) totalInstalls)
        else (([], []), [])
    | none => (([], []), [])
  let errors := e1 ++ e2 ++ e3 ++ e4 ++ prevChecks.1.1
  let warnings := prevChecks.1.2 ++ prevChecks.2 ++ dupNameCheck skills
  ⟨errors.isEmpty, errors, warnings, stats⟩

/-- Embedding of `isDataUsable` from validate.ts. -/
def isDataUsable (skills : List EnrichedSkill) : Bool :=
  if skills.length < 100 then false
  else (skills.take 10).all (fun s => !isMalformed s)

/-! ## Staleness reconciler (scraper/validate.ts, `filterStaleSkills`) -/

/-- One entry of `removedSkills`. -/
structure RemovedSkill where
  skillId : String
  source : String
deriving DecidableEq

/-- Embedding of `RepoCacheEntry` from validate.ts; `validatedAt` is an epoch-millisecond
timestamp (the code stores an ISO string and converts back with
`new Date(...).getTime()`). -/
structure RepoCacheEntry where
  validatedAt : Nat
  dirs : List String
deriving DecidableEq

/-- The persisted verification cache, keyed by source. -/
abbrev ValidationCache := List (String × RepoCacheEntry)

/-- The cache TTL of 24 hours in milliseconds. -/
def VALIDATION_TTL_MS : Nat := 24 * 60 * 60 * 1000

/-- Embedding of `cache[source]` read. -/
def cacheLookup (cache : ValidationCache) (src : String) : Option RepoCacheEntry :=
  (cache.find? (fun p => p.1 == src)).map (fun p => p.2)

/-- Embedding of `cache[source] = entry` write. -/
def cacheInsert (cache : ValidationCache) (src : String) (e : RepoCacheEntry) :
    ValidationCache :=
  if cache.any (fun p => p.1 == src) then
    cache.map (fun p => if p.1 == src then (src, e) else p)
  else cache ++ [(src, e)]

/-- Embedding of `cached && (now - new Date(cached.validatedAt).getTime()) < VALIDATION_TTL_MS`. -/
def isFreshCached (cache : ValidationCache) (now : Nat) (src : String) : Bool :=
  match cacheLookup cache src with
  | some e => now - e.validatedAt < VALIDATION_TTL_MS
  | none => false

/-- The dirs of a cache entry (`new Set(cache[source].dirs)`); only evaluated
behind a freshness check, so the default is never reached. -/
def cachedDirs (cache : ValidationCache) (src : String) : List String :=
  ((cacheLookup cache src).map (fun e => e.dirs)).getD []

/-- Embedding of `filterRepoSkills` from validate.ts: filter one repo's skills against its
actual skill-directory set (given as the element list of the JS `Set`). -/
def filterRepoSkills (source : String) (repoSkills : List EnrichedSkill)
    (actualDirs : List String) : List EnrichedSkill × List RemovedSkill :=
  let dirs := uniqueList actualDirs
  if dirs.length = 0 then
    ([], repoSkills.map (fun s => ⟨s.skillId, s.source⟩))
  else if repoSkills.length ≤ dirs.length then
    (repoSkills, [])
  else
    (repoSkills.filter (fun s => dirs.contains s.skillId || dirs.contains s.name),
     (repoSkills.filter (fun s => !(dirs.contains s.skillId || dirs.contains s.name))).map
       (fun s => ⟨s.skillId, s.source⟩))

/-- Grouping by `source` with a JS `Map`: keys in first-occurrence order,
each group holding that source's skills in input order. -/
def groupBySource (skills : List EnrichedSkill) : List (String × List EnrichedSkill) :=
  (uniqueList (skills.map (fun s => s.source))).map
    (fun src => (src, skills.filter (fun x => x.source == src)))

/-- Accumulator for processing the repos that need a fresh check. -/
structure CheckAcc where
  kept : List EnrichedSkill
  removedSkills : List RemovedSkill
  reposChecked : Nat
  cache : ValidationCache

/-- Processing of one to-check repo inside `filterStaleSkills`: fetch its
directory set; on failure keep every skill and leave the cache alone, on
success count the repo, refresh its cache entry and filter its skills.
`fetch` abstracts `fetchSkillDirs(owner, repo, token)` (owner/repo are
derived from the source), returning the `Set` as a list, or `none` on
failure. -/
def checkRepo (fetch : String → Option (List String)) (now : Nat)
    (acc : CheckAcc) (grp : String × List EnrichedSkill) : CheckAcc :=
  match fetch grp.1 with
  | none => { acc with kept := acc.kept ++ grp.2 }
  | some actualDirs =>
      let fr := filterRepoSkills grp.1 grp.2 actualDirs
      { kept := acc.kept ++ fr.1
        removedSkills := acc.removedSkills ++ fr.2
        reposChecked := acc.reposChecked + 1
        cache := cacheInsert acc.cache grp.1 ⟨now, actualDirs⟩ }

/-- The cached-repo pass of `filterStaleSkills`: apply `filterRepoSkills`
with each repo's cached directory set, accumulating kept and removed. -/
def applyCached (cache : ValidationCache) (groups : List (String × List EnrichedSkill)) :
    List EnrichedSkill × List RemovedSkill :=
  groups.foldl
    (fun acc grp =>
      let fr := filterRepoSkills grp.1 grp.2 (cachedDirs cache grp.1)
      (acc.1 ++ fr.1, acc.2 ++ fr.2))
    ([], [])

/-- Embedding of `FilterStaleResult` from validate.ts. -/
structure FilterStaleResult where
  filtered : List EnrichedSkill
  removed : Nat
  removedSkills : List RemovedSkill
  reposChecked : Nat
  skipped : Bool
deriving DecidableEq

/-- Embedding of `filterStaleSkills` from validate.ts.  `token` is `GITHUB_TOKEN`;
`cache` is the verification cache loaded at entry; `now` the current epoch
milliseconds; `fetch` the GitHub tree listing per source.  Returns the
result together with the cache as saved at the end.  The sequential fold
linearizes the batched concurrent fetches, which touch disjoint sources
and append results in batch order. -/
def filterStaleSkills (skills : List EnrichedSkill) (token : Option String)
    (cache : ValidationCache) (now : Nat)
    (fetch : String → Option (List String)) : FilterStaleResult × ValidationCache :=
  match token with
  | none => (⟨skills, 0, [], 0, true⟩, cache)
  | some _ =>
      let byRepo := groupBySource skills
      let cachedRepos := byRepo.filter (fun grp => isFreshCached cache now grp.1)
      let reposToCheck := byRepo.filter (fun grp => !isFreshCached cache now grp.1)
      let cachedPart := applyCached cache cachedRepos
      let final := reposToCheck.foldl (checkRepo fetch now)
        ⟨cachedPart.1, cachedPart.2, 0, cache⟩
      (⟨final.kept, final.removedSkills.length, final.removedSkills,
        final.reposChecked, false⟩,
       final.cache)

/-! ## Refresh orchestrator (scheduler/refresh.ts) -/

/-- Embedding of `RefreshResult` from refresh.ts (optional fields are `none` when the
code leaves them out). -/
structure RefreshResult where
  success : Bool
  timestamp : String
  skillCount : Option Nat := none
  sourceCount : Option Nat := none
  ownerCount : Option Nat := none
  error : Option String := none
  durationMs : Option Nat := none
  storageType : Option String := none
  savedTo : Option (Bool × Bool) := none
  validation : Option ValidationResult := none
  skipped : Option Bool := none
deriving DecidableEq

/-- The module-level mutable state of refresh.ts owned by the orchestrator:
the `isRefreshing` guard and the `lastRefreshResult` cell. -/
structure SchedulerState where
  isRefreshing : Bool
  lastResult : Option RefreshResult
deriving DecidableEq

/-- The world one refresh invocation runs against: the loaded previous
snapshot (`none` when loading failed), the scrape outcome, the reconciler
inputs, and ambient values (timestamps, storage backends). -/
structure RefreshEnv where
  previousData : Option ScrapedData
  scraped : Except String (List ScrapedSkill)
  token : Option String
  cache : ValidationCache
  now : Nat
  fetchDirs : String → Option (List String)
  nowIso : String
  duration : Nat
  storageType : String
  savedTo : Bool × Bool

/-- Everything one invocation of `refreshSkillsData` produces: the returned
result, the updated module state, what was persisted (`none` when nothing
was written), whether the in-memory registry was reloaded, and the
verification cache as left behind. -/
structure RefreshOutcome where
  result : RefreshResult
  state : SchedulerState
  persisted : Option ScrapedData
  reloaded : Bool
  cacheAfter : ValidationCache

/-- The reconciler call inside `refreshSkillsData`. -/
def refreshStale (env : RefreshEnv) (sk : List ScrapedSkill) :
    FilterStaleResult × ValidationCache :=
  filterStaleSkills (enrichSkills sk) env.token env.cache env.now env.fetchDirs

/-- The skill list after the stale filter
(`if (!staleResult.skipped) enriched = staleResult.filtered`). -/
def refreshEnriched2 (env : RefreshEnv) (sk : List ScrapedSkill) : List EnrichedSkill :=
  if (refreshStale env sk).1.skipped then enrichSkills sk
  else (refreshStale env sk).1.filtered

/-- The validation options `refreshSkillsData` passes explicitly. -/
def refreshOptions (env : RefreshEnv) : ValidationOptions :=
  ⟨some 1000, some 100, some 50, env.previousData⟩

/-- The validation performed inside `refreshSkillsData`. -/
def refreshValidation (env : RefreshEnv) (sk : List ScrapedSkill) : ValidationResult :=
  validateScrapedData (refreshEnriched2 env sk) (refreshOptions env)

/-- Embedding of `refreshSkillsData` from refresh.ts as a pure transition: guard on
`isRefreshing`, then scrape → enrich → reconcile → validate → on acceptance
persist and reload, on rejection or error persist nothing; the guard is
cleared on every exit path except the early conflict return. -/
def refreshSkillsData (st : SchedulerState) (env : RefreshEnv) : RefreshOutcome :=
  if st.isRefreshing then
    { result := { success := false, timestamp := env.nowIso,
                  error := some "Refresh already in progress" }
      state := st
      persisted := none
      reloaded := false
      cacheAfter := env.cache }
  else
    match env.scraped with
    | Except.error msg =>
        let r : RefreshResult :=
          { success := false, timestamp := env.nowIso, error := some msg,
            durationMs := some env.duration }
        ⟨r, ⟨false, some r⟩, none, false, env.cache⟩
    | Except.ok sk =>
        let staleCache := (refreshStale env sk).2
        let enriched2 := refreshEnriched2 env sk
        let validation := refreshValidation env sk
        if validation.valid then
          let output : ScrapedData :=
            ⟨env.nowIso, enriched2.length, (getUniqueSources sk).length,
             (getUniqueOwners sk).length, enriched2⟩
          let r : RefreshResult :=
            { success := true, timestamp := output.scrapedAt,
              skillCount := some output.totalSkills,
              sourceCount := some output.totalSources,
              ownerCount := some output.totalOwners,
              durationMs := some env.duration,
              storageType := some env.storageType,
              savedTo := some env.savedTo,
              validation := some validation }
          ⟨r, ⟨false, some r⟩, some output, true, staleCache⟩
        else
          let r : RefreshResult :=
            { success := false, timestamp := env.nowIso,
              error := some ("Validation failed: " ++
                String.intercalate "; " validation.errors),
              durationMs := some env.duration,
              storageType := some env.storageType,
              validation := some validation,
              skipped := some true,
              skillCount := some enriched2.length,
              sourceCount := some (getUniqueSources sk).length }
          ⟨r, ⟨false, some r⟩, none, false, staleCache⟩

/-! ## Scheduler timer (refresh.ts `startRefreshScheduler`, routes/admin.ts,
server.ts) -/

/-- Embedding of `RefreshSchedulerOptions` (the fields the timer logic uses). -/
structure RefreshSchedulerOptions where
  intervalMs : Option Nat := none
  refreshOnStart : Option Bool := none
deriving DecidableEq

/-- The interval `startRefreshScheduler` actually schedules with:
`const { intervalMs = 30 * 60 * 1000 } = options` — no floor applied. -/
def schedulerIntervalMs (opts : RefreshSchedulerOptions) : Nat :=
  opts.intervalMs.getD (30 * 60 * 1000)

/-- The module-level `refreshTimer` cell: `some interval` while a timer is
scheduled at that interval. -/
structure TimerState where
  refreshTimer : Option Nat
deriving DecidableEq

/-- Embedding of `startRefreshScheduler`: no-op when a timer exists, otherwise create the
timer at the configured interval. -/
def startRefreshScheduler (ts : TimerState) (opts : RefreshSchedulerOptions) :
    TimerState :=
  match ts.refreshTimer with
  | some _ => ts
  | none => ⟨some (schedulerIntervalMs opts)⟩

/-- Embedding of `stopRefreshScheduler`. -/
def stopRefreshScheduler (ts : TimerState) : TimerState :=
  ⟨none⟩

/-- Embedding of `isSchedulerRunning`. -/
def isSchedulerRunning (ts : TimerState) : Bool :=
  ts.refreshTimer.isSome

/-- The interval computed by `POST /api/admin/scheduler/start`:
`Math.max(5, intervalMinutes) * 60 * 1000` — the only place a 5-minute
floor is applied. -/
def adminStartIntervalMs (intervalMinutes : Int) : Int :=
  max 5 intervalMinutes * 60 * 1000

/-- The interval `createSkillsApiServer` passes when `autoRefresh` is set:
`intervalMs: refreshIntervalMinutes * 60 * 1000` — no floor applied. -/
def serverAutoRefreshIntervalMs (refreshIntervalMinutes : Nat) : Nat :=
  refreshIntervalMinutes * 60 * 1000

/-! ## Helper lemmas -/

/-! ## Witness data and derived pipeline stages -/

/-- The skills kept for one to-check repo. -/
def checkKept (fetch : String → Option (List String))
    (grp : String × List EnrichedSkill) : List EnrichedSkill :=
  match fetch grp.1 with
  | none => grp.2
  | some actualDirs => (filterRepoSkills grp.1 grp.2 actualDirs).1

/-- The skills removed for one to-check repo. -/
def checkRemoved (fetch : String → Option (List String))
    (grp : String × List EnrichedSkill) : List RemovedSkill :=
  match fetch grp.1 with
  | none => []
  | some actualDirs => (filterRepoSkills grp.1 grp.2 actualDirs).2

/-- The cache update for one to-check repo. -/
def cacheStep (fetch : String → Option (List String)) (now : Nat)
    (c : ValidationCache) (grp : String × List EnrichedSkill) : ValidationCache :=
  match fetch grp.1 with
  | none => c
  | some actualDirs => cacheInsert c grp.1 ⟨now, actualDirs⟩

/-- The groups served from a fresh cache entry. -/
def staleCachedRepos (skills : List EnrichedSkill) (cache : ValidationCache)
    (now : Nat) : List (String × List EnrichedSkill) :=
  (groupBySource skills).filter (fun g => isFreshCached cache now g.1)

/-- The groups that need a fresh verification fetch. -/
def staleToCheck (skills : List EnrichedSkill) (cache : ValidationCache)
    (now : Nat) : List (String × List EnrichedSkill) :=
  (groupBySource skills).filter (fun g => !isFreshCached cache now g.1)

/-- Concrete skill for the C2 witness. -/
def wC2skill : EnrichedSkill :=
  ⟨"a/b", "k", "n", 0, "a", "b", "https://github.com/a/b", "N"⟩

/-- Skills for the C1 witness (scenario: registry `a`,`b`,`c`; actual `{a,c}`). -/
def wSkillA : EnrichedSkill := ⟨"o/r", "a", "a", 1, "o", "r", "", "A"⟩

def wSkillB : EnrichedSkill := ⟨"o/r", "b", "b", 2, "o", "r", "", "B"⟩

def wSkillC : EnrichedSkill := ⟨"o/r", "c", "c", 3, "o", "r", "", "C"⟩

/-- Environment for the C3 witness: an empty scrape, which validation
always rejects under the orchestrator's thresholds. -/
def wEnvC3 : RefreshEnv :=
  ⟨none, Except.ok [], none, [], 0, fun _ => none, "ts", 5, "filesystem",
   (false, false)⟩

/-- Environment for the C4 witness. -/
def wEnvC4 : RefreshEnv :=
  ⟨none, Except.ok [], none, [], 0, fun _ => none, "ts", 5, "filesystem",
   (false, false)⟩

/-- Skill used in the C7 witness lists. -/
def wVSkill : EnrichedSkill := ⟨"s0/r", "k", "n", 0, "s0", "r", "", "K"⟩

/-- Previous snapshot of 2000 skills for the C7 witness. -/
def wPrev2000 : ScrapedData := ⟨"t", 2000, 1, 1, List.replicate 2000 wVSkill⟩

/-- A hundred skills with pairwise distinct sources for the C7 candidate. -/
def wDistinct100 : List EnrichedSkill :=
  (List.range 100).map
    (fun i => ⟨"s" ++ toString i ++ "/r", "k", "n", 0, "s", "r", "", "K"⟩)

/-- The 1900-skill C7 candidate: 100 distinct sources, then repeats. -/
def wSkills1900 : List EnrichedSkill :=
  wDistinct100 ++ List.replicate 1800 wVSkill

/-- Raw filler skill for the C10 witness. -/
def wRawFill : ScrapedSkill := ⟨"s0/r", "k", "n", 5⟩

/-- Ninety-nine raw skills with distinct further sources for the C10 witness. -/
def wRawTail : List ScrapedSkill :=
  (List.range 99).map (fun i => ⟨"s" ++ toString (i + 1) ++ "/r", "k", "n", 5⟩)

/-- The raw skill whose whole source gets dropped in the C10 witness. -/
def wRawDrop : ScrapedSkill := ⟨"drop/me", "g", "g", 0⟩

/-- The 1000 raw skills that survive reconciliation, already grouped by
source (901 copies of one source, then 99 distinct sources). -/
def wRawKept : List ScrapedSkill :=
  List.replicate 901 wRawFill ++ wRawTail

/-- The 1001 raw skills for the C10 witness. -/
def wRaw1001 : List ScrapedSkill := wRawKept ++ [wRawDrop]

/-- The C10 witness fetch: `drop/me` has no skill directories, every other
fetch fails. -/
def wFetch : String → Option (List String) :=
  fun src => if src == "drop/me" then some [] else none

/-- The 99 tail source keys of the C10 witness. -/
def wTailKeys : List String :=
  (List.range 99).map (fun i => "s" ++ toString (i + 1) ++ "/r")

/-- The 100 surviving source keys of the C10 witness. -/
def wKeptKeys : List String := "s0/r" :: wTailKeys

/-- The grouped form of the surviving skills of the C10 witness. -/
def wGroups : List (String × List EnrichedSkill) :=
  ("s0/r", List.replicate 901 (enrichOne wRawFill)) ::
    (List.range 99).map
      (fun i => ("s" ++ toString (i + 1) ++ "/r",
        [enrichOne ⟨"s" ++ toString (i + 1) ++ "/r", "k", "n", 5⟩]))

/-- Environment for the C10 witness. -/
def wEnvC10 : RefreshEnv :=
  ⟨none, Except.ok wRaw1001, some "t", [], 0, wFetch, "ts", 5, "filesystem",
   (false, false)⟩

/-- The snapshot persisted in the C10 witness run. -/
def wSnapC10 : ScrapedData :=
  ⟨"ts", (refreshEnriched2 wEnvC10 wRaw1001).length,
   (getUniqueSources wRaw1001).length, (getUniqueOwners wRaw1001).length,
   refreshEnriched2 wEnvC10 wRaw1001⟩

theorem foldl_insKey_mem (l : List String) :
    ∀ (acc : List String) (a : String), a ∈ l.foldl insKey acc ↔ a ∈ acc ∨ a ∈ l := by
  induction l with
  | nil => intro acc a; simp
  | cons x xs ih =>
    intro acc a
    rw [List.foldl_cons, ih, insKey]
    split_ifs with h
    · simp only [List.mem_cons]
      constructor
      · rintro (ha | ha)
        · exact Or.inl ha
        · exact Or.inr (Or.inr ha)
      · rintro (ha | ha | ha)
        · exact Or.inl ha
        · exact Or.inl (by rw [ha]; exact h)
        · exact Or.inr ha
    · simp only [List.mem_append, List.mem_singleton, List.mem_cons, or_assoc,
        List.not_mem_nil, false_or]

theorem mem_uniqueList (l : List String) (a : String) : a ∈ uniqueList l ↔ a ∈ l := by
  rw [uniqueList, foldl_insKey_mem]
  simp

theorem foldl_insKey_nodup (l : List String) :
    ∀ acc : List String, acc.Nodup → (l.foldl insKey acc).Nodup := by
  induction l with
  | nil => intro acc h; simpa using h
  | cons x xs ih =>
    intro acc h
    rw [List.foldl_cons]
    apply ih
    rw [insKey]
    split_ifs with hx
    · exact h
    · rw [List.nodup_append]
      exact ⟨h, List.nodup_singleton x, by simpa [List.disjoint_singleton] using hx⟩

theorem nodup_uniqueList (l : List String) : (uniqueList l).Nodup :=
  foldl_insKey_nodup l [] List.nodup_nil

theorem uniqueList_toFinset (l : List String) : (uniqueList l).toFinset = l.toFinset := by
  ext a
  simp [mem_uniqueList]

theorem length_uniqueList (l : List String) : (uniqueList l).length = l.toFinset.card := by
  rw [← uniqueList_toFinset, List.toFinset_card_of_nodup (nodup_uniqueList l)]

theorem length_sortStrings (l : List String) : (sortStrings l).length = l.length :=
  (List.perm_insertionSort _ l).length_eq

theorem contains_eq_of_mem_iff {l₁ l₂ : List String} (h : ∀ a, a ∈ l₁ ↔ a ∈ l₂)
    (x : String) : l₁.contains x = l₂.contains x := by
  rw [Bool.eq_iff_iff]
  exact List.elem_iff.trans ((h x).trans List.elem_iff.symm)

theorem contains_uniqueList (l : List String) (x : String) :
    (uniqueList l).contains x = l.contains x :=
  contains_eq_of_mem_iff (mem_uniqueList l) x

theorem filter_flatten {α : Type} (p : α → Bool) :
    ∀ L : List (List α), (L.flatten).filter p = (L.map (List.filter p)).flatten := by
  intro L
  induction L with
  | nil => rfl
  | cons x xs ih => simp [List.filter_append, ih]

theorem flatten_eq_nil_of_all_nil {α : Type} :
    ∀ L : List (List α), (∀ x ∈ L, x = []) → L.flatten = [] := by
  intro L
  induction L with
  | nil => intro _; rfl
  | cons x xs ih =>
    intro h
    rw [List.flatten_cons, h x (List.mem_cons_self x xs), List.nil_append]
    exact ih (fun y hy => h y (List.mem_cons_of_mem x hy))

theorem mem_flatten_map {α β : Type} (f : α → List β) (l : List α) (b : β)
    (h : b ∈ (l.map f).flatten) : ∃ a ∈ l, b ∈ f a := by
  rw [List.mem_flatten] at h
  obtain ⟨sub, hsub, hb⟩ := h
  obtain ⟨a, ha, rfl⟩ := List.mem_map.mp hsub
  exact ⟨a, ha, hb⟩

/-! ### groupBySource lemmas -/

theorem mem_groupBySource (skills : List EnrichedSkill)
    (grp : String × List EnrichedSkill) (h : grp ∈ groupBySource skills) :
    grp.2 = skills.filter (fun x => x.source == grp.1) ∧
      grp.1 ∈ skills.map (fun s => s.source) := by
  rw [groupBySource] at h
  obtain ⟨src, hsrc, rfl⟩ := List.mem_map.mp h
  exact ⟨rfl, (mem_uniqueList _ _).mp hsrc⟩

theorem groupBySource_keys (skills : List EnrichedSkill) :
    (groupBySource skills).map Prod.fst = uniqueList (skills.map (fun s => s.source)) := by
  simp only [groupBySource, List.map_map, Function.comp_def]
  exact List.map_id' _

theorem groupBySource_keys_nodup (skills : List EnrichedSkill) :
    ((groupBySource skills).map Prod.fst).Nodup := by
  rw [groupBySource_keys]
  exact nodup_uniqueList _

theorem source_of_mem_group (skills : List EnrichedSkill)
    (grp : String × List EnrichedSkill) (h : grp ∈ groupBySource skills)
    {x : EnrichedSkill} (hx : x ∈ grp.2) : x.source = grp.1 := by
  obtain ⟨heq, -⟩ := mem_groupBySource skills grp h
  rw [heq] at hx
  have hpx := List.of_mem_filter hx
  simpa using hpx

theorem mem_of_mem_group (skills : List EnrichedSkill)
    (grp : String × List EnrichedSkill) (h : grp ∈ groupBySource skills)
    {x : EnrichedSkill} (hx : x ∈ grp.2) : x ∈ skills := by
  obtain ⟨heq, -⟩ := mem_groupBySource skills grp h
  rw [heq] at hx
  exact List.mem_of_mem_filter hx

theorem key_mem_groupBySource (skills : List EnrichedSkill) (src : String)
    (h : src ∈ skills.map (fun s => s.source)) :
    (src, skills.filter (fun x => x.source == src)) ∈ groupBySource skills := by
  rw [groupBySource]
  exact List.mem_map.mpr ⟨src, (mem_uniqueList _ _).mpr h, rfl⟩

/-! ### filterRepoSkills lemmas -/

theorem filterRepoSkills_kept_subset (source : String) (S : List EnrichedSkill)
    (D : List String) : ∀ x ∈ (filterRepoSkills source S D).1, x ∈ S := by
  intro x hx
  simp only [filterRepoSkills] at hx
  split_ifs at hx
  · simp at hx
  · exact hx
  · exact List.mem_of_mem_filter hx

theorem filterRepoSkills_removed_source (source : String) (S : List EnrichedSkill)
    (D : List String) :
    ∀ r ∈ (filterRepoSkills source S D).2, ∃ x ∈ S, r.source = x.source := by
  intro r hr
  simp only [filterRepoSkills] at hr
  split_ifs at hr
  · obtain ⟨x, hx, rfl⟩ := List.mem_map.mp hr
    exact ⟨x, hx, rfl⟩
  · simp at hr
  · obtain ⟨x, hx, rfl⟩ := List.mem_map.mp hr
    exact ⟨x, List.mem_of_mem_filter hx, rfl⟩

/-! ### Closed forms for the to-check fold of `filterStaleSkills` -/

theorem checkFold_kept (fetch : String → Option (List String)) (now : Nat) :
    ∀ (gs : List (String × List EnrichedSkill)) (acc : CheckAcc),
      (gs.foldl (checkRepo fetch now) acc).kept =
        acc.kept ++ (gs.map (checkKept fetch)).flatten := by
  intro gs
  induction gs with
  | nil => intro acc; simp
  | cons g gs ih =>
    intro acc
    rw [List.foldl_cons, ih, List.map_cons, List.flatten_cons, ← List.append_assoc]
    congr 1
    cases hf : fetch g.1 <;> simp [checkRepo, hf, checkKept]

theorem checkFold_removed (fetch : String → Option (List String)) (now : Nat) :
    ∀ (gs : List (String × List EnrichedSkill)) (acc : CheckAcc),
      (gs.foldl (checkRepo fetch now) acc).removedSkills =
        acc.removedSkills ++ (gs.map (checkRemoved fetch)).flatten := by
  intro gs
  induction gs with
  | nil => intro acc; simp
  | cons g gs ih =>
    intro acc
    rw [List.foldl_cons, ih, List.map_cons, List.flatten_cons, ← List.append_assoc]
    congr 1
    cases hf : fetch g.1 <;> simp [checkRepo, hf, checkRemoved]

theorem checkFold_checked (fetch : String → Option (List String)) (now : Nat) :
    ∀ (gs : List (String × List EnrichedSkill)) (acc : CheckAcc),
      (gs.foldl (checkRepo fetch now) acc).reposChecked =
        acc.reposChecked + (gs.filter (fun g => (fetch g.1).isSome)).length := by
  intro gs
  induction gs with
  | nil => intro acc; simp
  | cons g gs ih =>
    intro acc
    rw [List.foldl_cons, ih]
    cases hf : fetch g.1 <;>
      simp [checkRepo, hf, List.filter_cons] <;> omega

theorem checkFold_cache (fetch : String → Option (List String)) (now : Nat) :
    ∀ (gs : List (String × List EnrichedSkill)) (acc : CheckAcc),
      (gs.foldl (checkRepo fetch now) acc).cache =
        gs.foldl (cacheStep fetch now) acc.cache := by
  intro gs
  induction gs with
  | nil => intro acc; simp
  | cons g gs ih =>
    intro acc
    rw [List.foldl_cons, ih, List.foldl_cons]
    congr 1
    cases hf : fetch g.1 <;> simp [checkRepo, hf, cacheStep]

theorem applyCached_aux (cache : ValidationCache) :
    ∀ (gs : List (String × List EnrichedSkill)) (acc : List EnrichedSkill × List RemovedSkill),
      gs.foldl
        (fun acc grp =>
          let fr := filterRepoSkills grp.1 grp.2 (cachedDirs cache grp.1)
          (acc.1 ++ fr.1, acc.2 ++ fr.2)) acc =
      (acc.1 ++ (gs.map (fun g => (filterRepoSkills g.1 g.2 (cachedDirs cache g.1)).1)).flatten,
       acc.2 ++ (gs.map (fun g => (filterRepoSkills g.1 g.2 (cachedDirs cache g.1)).2)).flatten) := by
  intro gs
  induction gs with
  | nil => intro acc; simp
  | cons g gs ih =>
    intro acc
    rw [List.foldl_cons, ih]
    simp [List.append_assoc]

theorem applyCached_spec (cache : ValidationCache)
    (gs : List (String × List EnrichedSkill)) :
    applyCached cache gs =
      ((gs.map (fun g => (filterRepoSkills g.1 g.2 (cachedDirs cache g.1)).1)).flatten,
       (gs.map (fun g => (filterRepoSkills g.1 g.2 (cachedDirs cache g.1)).2)).flatten) := by
  rw [applyCached, applyCached_aux]
  simp

/-! ### Cache-preservation lemmas -/

theorem cacheLookup_cacheInsert_ne (c : ValidationCache) (k s : String)
    (e : RepoCacheEntry) (hne : k ≠ s) :
    cacheLookup (cacheInsert c k e) s = cacheLookup c s := by
  rw [cacheInsert]
  split_ifs with h
  · rw [cacheLookup, cacheLookup]
    congr 1
    clear h
    induction c with
    | nil => rfl
    | cons p ps ih =>
      rw [List.map_cons, List.find?_cons, List.find?_cons]
      cases hpk : (p.1 == k) with
      | false =>
        cases hps : (p.1 == s)
        · simpa [hps] using ih
        · simp [hps]
      | true =>
        have hp1 : p.1 = k := by simpa using hpk
        have hks : (k == s) = false := by simpa using hne
        have hps : (p.1 == s) = false := by rw [hp1]; exact hks
        simpa [hps, hks] using ih
  · rw [cacheLookup, cacheLookup, List.find?_append]
    have h1 : (List.find? (fun p => p.1 == s) [(k, e)]) = none := by
      simp [hne]
    rw [h1]
    cases List.find? (fun p => p.1 == s) c <;> rfl

theorem cacheStep_fold_preserve (fetch : String → Option (List String)) (now : Nat)
    (s : String) :
    ∀ (gs : List (String × List EnrichedSkill)) (c : ValidationCache),
      (∀ g ∈ gs, g.1 = s → fetch g.1 = none) →
      cacheLookup (gs.foldl (cacheStep fetch now) c) s = cacheLookup c s := by
  intro gs
  induction gs with
  | nil => intro c _; rfl
  | cons g gs ih =>
    intro c h
    rw [List.foldl_cons, ih _ (fun g' hg' => h g' (List.mem_cons_of_mem g hg'))]
    rw [cacheStep]
    cases hf : fetch g.1 with
    | none => rfl
    | some dirs =>
      by_cases hgs : g.1 = s
      · exact absurd (h g (List.mem_cons_self g gs) hgs) (by simp [hf])
      · exact cacheLookup_cacheInsert_ne c g.1 s ⟨now, dirs⟩ hgs

/-! ### Single-key flatten lemmas -/

theorem flatten_map_ite_nil {β : Type} (s : String) (C : List EnrichedSkill) :
    ∀ gs : List (String × β), s ∉ gs.map Prod.fst →
      (gs.map (fun g => if g.1 = s then C else [])).flatten = [] := by
  intro gs
  induction gs with
  | nil => intro _; rfl
  | cons g gs ih =>
    intro h
    simp only [List.map_cons, List.flatten_cons] at h ⊢
    have hg : g.1 ≠ s := by
      intro hc
      exact h (by rw [← hc]; exact List.mem_cons_self _ _)
    rw [if_neg hg, List.nil_append]
    exact ih (fun hc => h (List.mem_cons_of_mem _ hc))

theorem flatten_map_ite_single {β : Type} (s : String) (C : List EnrichedSkill) :
    ∀ gs : List (String × β), (gs.map Prod.fst).Nodup →
      (gs.map (fun g => if g.1 = s then C else [])).flatten =
        (if s ∈ gs.map Prod.fst then C else []) := by
  intro gs
  induction gs with
  | nil => intro _; rfl
  | cons g gs ih =>
    intro h
    simp only [List.map_cons, List.flatten_cons, List.nodup_cons] at h ⊢
    obtain ⟨hnot, hnd⟩ := h
    by_cases hg : g.1 = s
    · rw [if_pos hg, if_pos (by rw [← hg]; exact List.mem_cons_self _ _)]
      rw [flatten_map_ite_nil s C gs (by rw [← hg]; exact hnot), List.append_nil]
    · rw [if_neg hg, List.nil_append, ih hnd]
      have hiff : (s ∈ g.1 :: gs.map Prod.fst) ↔ (s ∈ gs.map Prod.fst) := by
        rw [List.mem_cons]
        exact or_iff_right (fun hc => hg hc.symm)
      by_cases hs : s ∈ gs.map Prod.fst
      · rw [if_pos hs, if_pos (hiff.mpr hs)]
      · rw [if_neg hs, if_neg (fun hc => hs (hiff.mp hc))]

/-! ### Structure of a non-skipped `filterStaleSkills` run -/

theorem stale_filtered_eq (skills : List EnrichedSkill) (t : String)
    (cache : ValidationCache) (now : Nat) (fetch : String → Option (List String)) :
    (filterStaleSkills skills (some t) cache now fetch).1.filtered =
      ((staleCachedRepos skills cache now).map
        (fun g => (filterRepoSkills g.1 g.2 (cachedDirs cache g.1)).1)).flatten ++
      ((staleToCheck skills cache now).map (checkKept fetch)).flatten := by
  simp only [filterStaleSkills]
  rw [checkFold_kept, applyCached_spec]
  rfl

theorem stale_removed_eq (skills : List EnrichedSkill) (t : String)
    (cache : ValidationCache) (now : Nat) (fetch : String → Option (List String)) :
    (filterStaleSkills skills (some t) cache now fetch).1.removedSkills =
      ((staleCachedRepos skills cache now).map
        (fun g => (filterRepoSkills g.1 g.2 (cachedDirs cache g.1)).2)).flatten ++
      ((staleToCheck skills cache now).map (checkRemoved fetch)).flatten := by
  simp only [filterStaleSkills]
  rw [checkFold_removed, applyCached_spec]
  rfl

theorem stale_checked_eq (skills : List EnrichedSkill) (t : String)
    (cache : ValidationCache) (now : Nat) (fetch : String → Option (List String)) :
    (filterStaleSkills skills (some t) cache now fetch).1.reposChecked =
      ((staleToCheck skills cache now).filter (fun g => (fetch g.1).isSome)).length := by
  simp only [filterStaleSkills]
  rw [checkFold_checked]
  simp [staleToCheck]

theorem stale_cache_eq (skills : List EnrichedSkill) (t : String)
    (cache : ValidationCache) (now : Nat) (fetch : String → Option (List String)) :
    (filterStaleSkills skills (some t) cache now fetch).2 =
      (staleToCheck skills cache now).foldl (cacheStep fetch now) cache := by
  simp only [filterStaleSkills]
  rw [checkFold_cache]
  rfl

theorem mem_staleToCheck (skills : List EnrichedSkill) (cache : ValidationCache)
    (now : Nat) (g : String × List EnrichedSkill)
    (h : g ∈ staleToCheck skills cache now) :
    g ∈ groupBySource skills ∧ isFreshCached cache now g.1 = false := by
  refine ⟨List.mem_of_mem_filter h, ?_⟩
  have := List.of_mem_filter h
  simpa using this

theorem mem_staleCachedRepos (skills : List EnrichedSkill) (cache : ValidationCache)
    (now : Nat) (g : String × List EnrichedSkill)
    (h : g ∈ staleCachedRepos skills cache now) :
    g ∈ groupBySource skills ∧ isFreshCached cache now g.1 = true := by
  refine ⟨List.mem_of_mem_filter h, ?_⟩
  have := List.of_mem_filter h
  simpa using this

theorem staleToCheck_keys_nodup (skills : List EnrichedSkill)
    (cache : ValidationCache) (now : Nat) :
    ((staleToCheck skills cache now).map Prod.fst).Nodup :=
  (groupBySource_keys_nodup skills).sublist ((List.filter_sublist _).map Prod.fst)

theorem checkKept_subset (fetch : String → Option (List String))
    (g : String × List EnrichedSkill) : ∀ x ∈ checkKept fetch g, x ∈ g.2 := by
  intro x
  rw [checkKept]
  cases hf : fetch g.1 with
  | none => intro hx; exact hx
  | some d => intro hx; exact filterRepoSkills_kept_subset g.1 g.2 d x hx

theorem checkRemoved_source (fetch : String → Option (List String))
    (skills : List EnrichedSkill) (g : String × List EnrichedSkill)
    (hg : g ∈ groupBySource skills) :
    ∀ r ∈ checkRemoved fetch g, r.source = g.1 := by
  intro r
  rw [checkRemoved]
  cases hf : fetch g.1 with
  | none => intro hr; simp at hr
  | some d =>
    intro hr
    obtain ⟨x, hx, hxs⟩ := filterRepoSkills_removed_source g.1 g.2 d r hr
    rw [hxs]
    exact source_of_mem_group skills g hg hx

theorem checkKept_filter_source (skills : List EnrichedSkill)
    (cache : ValidationCache) (now : Nat) (fetch : String → Option (List String))
    (s : String) (hfail : fetch s = none) (g : String × List EnrichedSkill)
    (hg : g ∈ staleToCheck skills cache now) :
    (checkKept fetch g).filter (fun x => x.source == s) =
      if g.1 = s then skills.filter (fun x => x.source == s) else [] := by
  have hgb : g ∈ groupBySource skills := (mem_staleToCheck skills cache now g hg).1
  by_cases hgs : g.1 = s
  · rw [if_pos hgs]
    have hk : checkKept fetch g = g.2 := by
      rw [checkKept, hgs, hfail]
    rw [hk, (mem_groupBySource skills g hgb).1, hgs]
    simp [List.filter_filter]
  · rw [if_neg hgs]
    apply List.filter_eq_nil_iff.mpr
    intro x hx
    have hxg : x.source = g.1 :=
      source_of_mem_group skills g hgb (checkKept_subset fetch g x hx)
    simp [hxg, hgs]

theorem cachedKept_filter_source (skills : List EnrichedSkill)
    (cache : ValidationCache) (now : Nat) (s : String)
    (hnotfresh : isFreshCached cache now s = false) (g : String × List EnrichedSkill)
    (hg : g ∈ staleCachedRepos skills cache now) :
    ((filterRepoSkills g.1 g.2 (cachedDirs cache g.1)).1).filter
      (fun x => x.source == s) = [] := by
  obtain ⟨hgb, hfresh⟩ := mem_staleCachedRepos skills cache now g hg
  have hgs : g.1 ≠ s := by
    intro hc
    rw [hc, hnotfresh] at hfresh
    exact Bool.false_ne_true hfresh
  apply List.filter_eq_nil_iff.mpr
  intro x hx
  have hxg : x.source = g.1 :=
    source_of_mem_group skills g hgb (filterRepoSkills_kept_subset g.1 g.2 _ x hx)
  simp [hxg, hgs]

theorem stale_cached_keys_ne (skills : List EnrichedSkill) (cache : ValidationCache)
    (now : Nat) (s : String) (hnotfresh : isFreshCached cache now s = false)
    (g : String × List EnrichedSkill) (hg : g ∈ staleCachedRepos skills cache now) :
    g.1 ≠ s := by
  obtain ⟨-, hfresh⟩ := mem_staleCachedRepos skills cache now g hg
  intro hc
  rw [hc, hnotfresh] at hfresh
  exact Bool.false_ne_true hfresh

/-- C2: for every source whose verification fetch is actually performed
(no fresh cache entry) and fails (`fetchSkillDirs` returns null), the
reconciler keeps that source's skills unchanged, reports none of them
removed, leaves its cache entry unmodified, and counts as checked only
repos with a successful fetch — never this one. -/
theorem reconciler_fetch_failure_keeps_source (skills : List EnrichedSkill)
    (t : String) (cache : ValidationCache) (now : Nat)
    (fetch : String → Option (List String)) (s : String)
    (hfail : fetch s = none) (hnotfresh : isFreshCached cache now s = false) :
    ((filterStaleSkills skills (some t) cache now fetch).1.filtered.filter
        (fun x => x.source == s) =
      skills.filter (fun x => x.source == s)) ∧
    (∀ r ∈ (filterStaleSkills skills (some t) cache now fetch).1.removedSkills,
      r.source ≠ s) ∧
    (cacheLookup (filterStaleSkills skills (some t) cache now fetch).2 s =
      cacheLookup cache s) ∧
    ((filterStaleSkills skills (some t) cache now fetch).1.reposChecked =
      ((staleToCheck skills cache now).filter (fun g => (fetch g.1).isSome)).length ∧
     ∀ g ∈ (staleToCheck skills cache now).filter (fun g => (fetch g.1).isSome),
       g.1 ≠ s) := by
  refine ⟨?_, ?_, ?_, ?_, ?_⟩
  · rw [stale_filtered_eq, List.filter_append]
    have hA : (((staleCachedRepos skills cache now).map
        (fun g => (filterRepoSkills g.1 g.2 (cachedDirs cache g.1)).1)).flatten).filter
          (fun x => x.source == s) = [] := by
      rw [filter_flatten, List.map_map]
      apply flatten_eq_nil_of_all_nil
      intro x hx
      obtain ⟨g, hg, rfl⟩ := List.mem_map.mp hx
      simpa [Function.comp] using
        cachedKept_filter_source skills cache now s hnotfresh g hg
    have hB : (((staleToCheck skills cache now).map (checkKept fetch)).flatten).filter
        (fun x => x.source == s) = skills.filter (fun x => x.source == s) := by
      rw [filter_flatten, List.map_map]
      have hcongr : (staleToCheck skills cache now).map
            (List.filter (fun x => x.source == s) ∘ checkKept fetch) =
          (staleToCheck skills cache now).map
            (fun g => if g.1 = s then skills.filter (fun x => x.source == s) else []) :=
        List.map_congr_left (fun g hg => by
          simpa [Function.comp] using
            checkKept_filter_source skills cache now fetch s hfail g hg)
      rw [hcongr,
        flatten_map_ite_single s _ _ (staleToCheck_keys_nodup skills cache now)]
      by_cases hs : s ∈ skills.map (fun x => x.source)
      · rw [if_pos ?memk]
        case memk =>
          have hgrp := key_mem_groupBySource skills s hs
          have hmem : (s, skills.filter (fun x => x.source == s)) ∈
              staleToCheck skills cache now := by
            rw [staleToCheck]
            exact List.mem_filter.mpr ⟨hgrp, by simp [hnotfresh]⟩
          exact List.mem_map.mpr ⟨_, hmem, rfl⟩
      · rw [if_neg ?nmemk]
        case nmemk =>
          intro hc
          obtain ⟨g, hg, rfl⟩ := List.mem_map.mp hc
          have hgb := (mem_staleToCheck skills cache now g hg).1
          exact hs (mem_groupBySource skills g hgb).2
        symm
        apply List.filter_eq_nil_iff.mpr
        intro x hx
        simp only [Bool.not_eq_true, beq_eq_false_iff_ne, ne_eq]
        intro hc
        exact hs (List.mem_map.mpr ⟨x, hx, hc⟩)
    rw [hA, hB, List.nil_append]
  · intro r hr
    rw [stale_removed_eq] at hr
    rcases List.mem_append.mp hr with h1 | h2
    · obtain ⟨g, hg, hrg⟩ := mem_flatten_map _ _ _ h1
      have hgb := (mem_staleCachedRepos skills cache now g hg).1
      obtain ⟨x, hx, hxs⟩ := filterRepoSkills_removed_source g.1 g.2 _ r hrg
      rw [hxs, source_of_mem_group skills g hgb hx]
      exact stale_cached_keys_ne skills cache now s hnotfresh g hg
    · obtain ⟨g, hg, hrg⟩ := mem_flatten_map _ _ _ h2
      have hgb := (mem_staleToCheck skills cache now g hg).1
      have hsrc := checkRemoved_source fetch skills g hgb r hrg
      by_cases hgs : g.1 = s
      · exfalso
        have hnone : checkRemoved fetch g = [] := by
          rw [checkRemoved, hgs, hfail]
        rw [hnone] at hrg
        exact List.not_mem_nil r hrg
      · rw [hsrc]
        exact hgs
  · rw [stale_cache_eq]
    apply cacheStep_fold_preserve
    intro g _ hg1
    rw [hg1]
    exact hfail
  · exact stale_checked_eq skills t cache now fetch
  · intro g hg hc
    have hfetch := List.of_mem_filter hg
    rw [hc, hfail] at hfetch
    simp at hfetch

theorem reconciler_fetch_failure_keeps_source_witness :
    ((filterStaleSkills [wC2skill] (some "t") [] 0 (fun _ => none)).1.filtered.filter
        (fun x => x.source == "a/b") =
      [wC2skill].filter (fun x => x.source == "a/b")) ∧
    (∀ r ∈ (filterStaleSkills [wC2skill] (some "t") [] 0 (fun _ => none)).1.removedSkills,
      r.source ≠ "a/b") ∧
    (cacheLookup (filterStaleSkills [wC2skill] (some "t") [] 0 (fun _ => none)).2 "a/b" =
      cacheLookup [] "a/b") := by
  have h := reconciler_fetch_failure_keeps_source [wC2skill] "t" [] 0
    (fun _ => none) "a/b" rfl rfl
  exact ⟨h.1, h.2.1, h.2.2.1⟩

/-- C1: given a known actual-directory set `D` for a source and its
registered skills `S`, `filterRepoSkills` drops everything when `D` is
empty, keeps `S` unchanged when `|D| >= |S|`, and otherwise keeps exactly
the skills whose `skillId` or `name` is an element of `D`, reporting every
other skill removed. -/
theorem filterRepoSkills_cases (source : String) (S : List EnrichedSkill)
    (D : List String) :
    (D = [] →
      filterRepoSkills source S D =
        ([], S.map (fun s => ⟨s.skillId, s.source⟩))) ∧
    (S.length ≤ (uniqueList D).length →
      filterRepoSkills source S D = (S, [])) ∧
    ((uniqueList D).length < S.length →
      filterRepoSkills source S D =
        (S.filter (fun s => D.contains s.skillId || D.contains s.name),
         (S.filter (fun s => !(D.contains s.skillId || D.contains s.name))).map
           (fun s => ⟨s.skillId, s.source⟩))) := by
  refine ⟨?_, ?_, ?_⟩
  · intro hD
    subst hD
    have h0 : uniqueList ([] : List String) = [] := rfl
    simp [filterRepoSkills, h0]
  · intro h
    simp only [filterRepoSkills]
    by_cases h1 : (uniqueList D).length = 0
    · rw [if_pos h1]
      have hS : S = [] := List.length_eq_zero.mp (Nat.le_zero.mp (h1 ▸ h))
      subst hS
      simp
    · rw [if_neg h1, if_pos h]
  · intro h
    simp only [filterRepoSkills]
    by_cases h1 : (uniqueList D).length = 0
    · have hD : D = [] := by
        cases D with
        | nil => rfl
        | cons d ds =>
          exfalso
          have hmem : d ∈ uniqueList (d :: ds) :=
            (mem_uniqueList _ _).mpr (List.mem_cons_self d ds)
          rw [List.length_eq_zero.mp h1] at hmem
          exact List.not_mem_nil d hmem
      subst hD
      rw [if_pos h1, Prod.mk.injEq]
      constructor
      · symm
        apply List.filter_eq_nil_iff.mpr
        intro x _
        simp
      · have hq : S.filter (fun s =>
            !(List.contains [] s.skillId || List.contains [] s.name)) = S := by
          apply List.filter_eq_self.mpr
          intro x _
          simp
        rw [hq]
    · rw [if_neg h1, if_neg (by omega), Prod.mk.injEq]
      constructor
      · apply List.filter_congr
        intro x _
        rw [contains_uniqueList, contains_uniqueList]
      · congr 1
        apply List.filter_congr
        intro x _
        rw [contains_uniqueList, contains_uniqueList]

theorem filterRepoSkills_cases_witness :
    (filterRepoSkills "o/r" [wSkillA] [] =
      ([], [⟨"a", "o/r"⟩])) ∧
    (filterRepoSkills "o/r" [wSkillA] ["x", "y"] = ([wSkillA], [])) ∧
    (filterRepoSkills "o/r" [wSkillA, wSkillB, wSkillC] ["a", "c"] =
      ([wSkillA, wSkillC], [⟨"b", "o/r"⟩])) := by
  have h1 := (filterRepoSkills_cases "o/r" [wSkillA] []).1 rfl
  have h2 := (filterRepoSkills_cases "o/r" [wSkillA] ["x", "y"]).2.1 (by decide)
  have h3 := (filterRepoSkills_cases "o/r" [wSkillA, wSkillB, wSkillC]
    ["a", "c"]).2.2 (by decide)
  refine ⟨by rw [h1]; decide, h2, by rw [h3]; decide⟩

/-- C6: with no verification credential the reconciler is an exact no-op:
input returned unchanged, zero removed, no removed skills, zero repos
checked, `skipped = true`, cache untouched. -/
theorem reconciler_no_token_noop (skills : List EnrichedSkill)
    (cache : ValidationCache) (now : Nat) (fetch : String → Option (List String)) :
    filterStaleSkills skills none cache now fetch =
      (⟨skills, 0, [], 0, true⟩, cache) :=
  rfl

theorem validate_valid_eq_isEmpty (skills : List EnrichedSkill)
    (opts : ValidationOptions) :
    (validateScrapedData skills opts).valid =
      (validateScrapedData skills opts).errors.isEmpty :=
  rfl

/-- C8: on an empty candidate list the validator rejects for every choice
of options, and its errors contain the empty-result message. -/
theorem validator_empty_rejects (opts : ValidationOptions) :
    (validateScrapedData [] opts).valid = false ∧
    emptyMsg ∈ (validateScrapedData [] opts).errors := by
  have hmem : emptyMsg ∈ (validateScrapedData [] opts).errors := by
    simp [validateScrapedData]
  refine ⟨?_, hmem⟩
  rw [validate_valid_eq_isEmpty, Bool.eq_false_iff]
  intro hc
  rw [List.isEmpty_iff] at hc
  rw [hc] at hmem
  exact List.not_mem_nil _ hmem

/-! ### C5: enrichment owner/repo -/

theorem mk_append_slash (s : String) (a b : List Char)
    (h : s.data.splitOn '/' = [a, b]) : String.mk a ++ "/" ++ String.mk b = s := by
  have h2 : [('/' : Char)].intercalate (s.data.splitOn '/') = s.data :=
    List.intercalate_splitOn s.data '/'
  rw [h] at h2
  simp [List.intercalate] at h2
  apply String.ext
  simp
  simpa using h2

theorem mk_single_segment (s : String) (a : List Char)
    (h : s.data.splitOn '/' = [a]) : String.mk a = s := by
  have h2 : [('/' : Char)].intercalate (s.data.splitOn '/') = s.data :=
    List.intercalate_splitOn s.data '/'
  rw [h] at h2
  simp [List.intercalate] at h2
  apply String.ext
  simpa using h2

/-- C5 counterexample: the skill with source `"abc"` is malformed (its
split yields one segment, fewer than two), yet enrichment gives
`owner = "abc"` and `repo = ""` — the owner is not the empty string the
claim demands. -/
theorem enrich_malformed_counterexample :
    (jsSplit '/' "abc").length < 2 ∧
    (enrichSkills [⟨"abc", "k", "n", 0⟩]).map (fun e => (e.owner, e.repo)) =
      [("abc", "")] ∧
    ¬ (("abc" : String) = "" ∧ ("" : String) = "") := by decide

/-- C5 (amended): enrichment sets `owner`/`repo` to the first and second
`/`-split segments of `source` (missing segments default to `""`); when
the split yields exactly two segments, `owner ++ "/" ++ repo = source`;
when it yields fewer than two (no `/` in the source), `owner` is the whole
source string and `repo` is empty. -/
theorem enrich_owner_repo_amended (l : List ScrapedSkill) (sk : ScrapedSkill)
    (h : sk ∈ l) :
    enrichOne sk ∈ enrichSkills l ∧
    (enrichOne sk).owner = ((jsSplit '/' sk.source).get? 0).getD "" ∧
    (enrichOne sk).repo = ((jsSplit '/' sk.source).get? 1).getD "" ∧
    ((jsSplit '/' sk.source).length = 2 →
      (enrichOne sk).owner ++ "/" ++ (enrichOne sk).repo = sk.source) ∧
    ((jsSplit '/' sk.source).length < 2 →
      (enrichOne sk).owner = sk.source ∧ (enrichOne sk).repo = "") := by
  refine ⟨List.mem_map.mpr ⟨sk, h, rfl⟩, rfl, rfl, ?_, ?_⟩
  · intro h2
    have hl : (sk.source.data.splitOn '/').length = 2 := by
      simpa [jsSplit] using h2
    obtain ⟨a, b, hab⟩ := List.length_eq_two.mp hl
    have howner : (enrichOne sk).owner = String.mk a := by
      simp [enrichOne, jsSplit, hab]
    have hrepo : (enrichOne sk).repo = String.mk b := by
      simp [enrichOne, jsSplit, hab]
    rw [howner, hrepo]
    exact mk_append_slash sk.source a b hab
  · intro h2
    have hl : (sk.source.data.splitOn '/').length < 2 := by
      simpa [jsSplit] using h2
    have hpos : 0 < (sk.source.data.splitOn '/').length :=
      List.length_pos.mpr (List.splitOnP_ne_nil _ _)
    have h1 : (sk.source.data.splitOn '/').length = 1 := by omega
    obtain ⟨a, hab⟩ := List.length_eq_one.mp h1
    constructor
    · have howner : (enrichOne sk).owner = String.mk a := by
        simp [enrichOne, jsSplit, hab]
      rw [howner]
      exact mk_single_segment sk.source a hab
    · simp [enrichOne, jsSplit, hab]

theorem enrich_owner_repo_amended_witness :
    enrichOne ⟨"a/b", "k", "n", 0⟩ ∈ enrichSkills [⟨"a/b", "k", "n", 0⟩] ∧
    (enrichOne ⟨"a/b", "k", "n", 0⟩).owner ++ "/" ++
        (enrichOne ⟨"a/b", "k", "n", 0⟩).repo = "a/b" ∧
    (enrichOne ⟨"abc", "k", "n", 0⟩).owner = "abc" ∧
    (enrichOne ⟨"abc", "k", "n", 0⟩).repo = "" := by
  have h1 := enrich_owner_repo_amended [⟨"a/b", "k", "n", 0⟩] ⟨"a/b", "k", "n", 0⟩
    (List.mem_singleton.mpr rfl)
  have h2 := enrich_owner_repo_amended [⟨"abc", "k", "n", 0⟩] ⟨"abc", "k", "n", 0⟩
    (List.mem_singleton.mpr rfl)
  exact ⟨h1.1, h1.2.2.2.1 (by decide), (h2.2.2.2.2 (by decide)).1,
    (h2.2.2.2.2 (by decide)).2⟩

/-! ### C3/C4: refresh orchestrator -/

/-- C3: when validation of the candidate dataset fails, the refresh
persists nothing, does not reload the in-memory cache, and returns
`success = false`, `skipped = true`, the joined validation errors in the
failure message, and the pre-rejection skill/source counts; the guard is
released. -/
theorem refresh_validation_rejected (st : SchedulerState) (env : RefreshEnv)
    (sk : List ScrapedSkill) (hrun : st.isRefreshing = false)
    (hscr : env.scraped = Except.ok sk)
    (hval : (refreshValidation env sk).valid = false) :
    (refreshSkillsData st env).persisted = none ∧
    (refreshSkillsData st env).reloaded = false ∧
    (refreshSkillsData st env).result.success = false ∧
    (refreshSkillsData st env).result.skipped = some true ∧
    (refreshSkillsData st env).result.error =
      some ("Validation failed: " ++
        String.intercalate "; " (refreshValidation env sk).errors) ∧
    (refreshSkillsData st env).result.skillCount =
      some (refreshEnriched2 env sk).length ∧
    (refreshSkillsData st env).result.sourceCount =
      some (getUniqueSources sk).length ∧
    (refreshSkillsData st env).result.validation = some (refreshValidation env sk) ∧
    (refreshSkillsData st env).state.isRefreshing = false := by
  simp [refreshSkillsData, hrun, hscr, hval]

theorem refresh_validation_rejected_witness :
    (refreshSkillsData ⟨false, none⟩ wEnvC3).persisted = none ∧
    (refreshSkillsData ⟨false, none⟩ wEnvC3).reloaded = false ∧
    (refreshSkillsData ⟨false, none⟩ wEnvC3).result.success = false ∧
    (refreshSkillsData ⟨false, none⟩ wEnvC3).result.skipped = some true := by
  have h := refresh_validation_rejected ⟨false, none⟩ wEnvC3 [] rfl rfl (by decide)
  exact ⟨h.1, h.2.1, h.2.2.1, h.2.2.2.1⟩

/-- C4: a refresh invoked while one is already in progress returns
immediately with `success = false` and the "already in progress" error,
persists nothing, reloads nothing, and leaves the scheduler state
(including the stored last result) untouched. -/
theorem refresh_conflict_guard (st : SchedulerState) (env : RefreshEnv)
    (hrun : st.isRefreshing = true) :
    (refreshSkillsData st env).result.success = false ∧
    (refreshSkillsData st env).result.error = some "Refresh already in progress" ∧
    (refreshSkillsData st env).persisted = none ∧
    (refreshSkillsData st env).reloaded = false ∧
    (refreshSkillsData st env).state = st := by
  simp [refreshSkillsData, hrun]

theorem refresh_conflict_guard_witness :
    (refreshSkillsData ⟨true, none⟩ wEnvC4).result.success = false ∧
    (refreshSkillsData ⟨true, none⟩ wEnvC4).result.error =
      some "Refresh already in progress" ∧
    (refreshSkillsData ⟨true, none⟩ wEnvC4).persisted = none ∧
    (refreshSkillsData ⟨true, none⟩ wEnvC4).state = ⟨true, none⟩ := by
  have h := refresh_conflict_guard ⟨true, none⟩ wEnvC4 rfl
  exact ⟨h.1, h.2.1, h.2.2.1, h.2.2.2.2⟩

/-! ### C7: validator drop thresholds -/

theorem validate_invalid_of_mem (skills : List EnrichedSkill)
    (opts : ValidationOptions) (msg : String)
    (h : msg ∈ (validateScrapedData skills opts).errors) :
    (validateScrapedData skills opts).valid = false := by
  rw [validate_valid_eq_isEmpty, Bool.eq_false_iff]
  intro hc
  rw [List.isEmpty_iff] at hc
  rw [hc] at h
  exact List.not_mem_nil _ h

theorem validate_errors_default (skills : List EnrichedSkill) (prev : ScrapedData)
    (h0 : 0 < prev.skills.length) :
    (validateScrapedData skills ⟨none, none, none, some prev⟩).errors =
      (if skills.length < 1000 then [minSkillMsg skills.length 1000] else []) ++
      (if sourceCountOf skills < 100 then
        [minSourceMsg (sourceCountOf skills) 100] else []) ++
      (if skills.length = 0 then [emptyMsg] else []) ++
      sampleCheck skills ++
      (dropCheck prev.skills.length skills.length 50).1 := by
  simp only [validateScrapedData]
  rw [if_pos h0]
  rfl

theorem sampleCheck_eq_nil (skills : List EnrichedSkill)
    (h : (skills.take (min 100 skills.length)).filter isMalformed = []) :
    sampleCheck skills = [] := by
  simp only [sampleCheck]
  rw [h]
  rw [if_neg ?hcond]
  case hcond =>
    simp only [List.length_nil, Nat.cast_zero]
    intro hc
    have hge : (0:ℚ) ≤ ((min 100 skills.length : Nat) : ℚ)/10 := by positivity
    linarith

/-- C7: with default options and a 2000-skill previous snapshot, a
900-skill candidate (55% drop) is rejected with the drop-percentage error;
a 1900-skill candidate (5% drop) gets neither error nor warning from the
drop check, and is accepted when no other threshold is breached; in
general a drop strictly above the ceiling is an error, and a drop strictly
above 10% but not above the ceiling is only a warning. -/
theorem validator_drop_thresholds :
    (∀ (skills : List EnrichedSkill) (prev : ScrapedData),
      skills.length = 900 → prev.skills.length = 2000 →
      dropErrMsg 2000 900 50 ∈
        (validateScrapedData skills ⟨none, none, none, some prev⟩).errors ∧
      (validateScrapedData skills ⟨none, none, none, some prev⟩).valid = false) ∧
    (∀ (skills : List EnrichedSkill) (prev : ScrapedData),
      skills.length = 1900 → prev.skills.length = 2000 →
      dropCheck 2000 1900 50 = ([], []) ∧
      (¬ sourceCountOf skills < 100 → sampleCheck skills = [] →
        (validateScrapedData skills ⟨none, none, none, some prev⟩).valid = true)) ∧
    (∀ (prevLen curLen : Nat) (maxDrop : ℚ),
      (dropPct prevLen curLen > maxDrop →
        dropCheck prevLen curLen maxDrop =
          ([dropErrMsg prevLen curLen maxDrop], [])) ∧
      (¬ dropPct prevLen curLen > maxDrop → dropPct prevLen curLen > 10 →
        dropCheck prevLen curLen maxDrop = ([], [dropWarnMsg prevLen curLen]))) := by
  refine ⟨?_, ?_, ?_⟩
  · intro skills prev hc hp
    have herr := validate_errors_default skills prev (by rw [hp]; norm_num)
    rw [hc, hp] at herr
    have hdrop : dropCheck 2000 900 (50:ℚ) = ([dropErrMsg 2000 900 50], []) := by
      rw [dropCheck, if_pos (by norm_num [dropPct])]
    rw [hdrop] at herr
    have hmem : dropErrMsg 2000 900 50 ∈
        (validateScrapedData skills ⟨none, none, none, some prev⟩).errors := by
      rw [herr]
      simp [List.mem_append]
    exact ⟨hmem, validate_invalid_of_mem _ _ _ hmem⟩
  · intro skills prev hc hp
    constructor
    · rw [dropCheck, if_neg (by norm_num [dropPct]), if_neg (by norm_num [dropPct])]
    · intro hsrc hsample
      rw [validate_valid_eq_isEmpty]
      have herr := validate_errors_default skills prev (by rw [hp]; norm_num)
      rw [hc, hp] at herr
      rw [herr, if_neg (by norm_num), if_neg hsrc, if_neg (by norm_num), hsample,
        dropCheck, if_neg (by norm_num [dropPct]), if_neg (by norm_num [dropPct])]
      rfl
  · intro prevLen curLen maxDrop
    constructor
    · intro hgt
      rw [dropCheck, if_pos hgt]
    · intro hle hgt
      rw [dropCheck, if_neg hle, if_pos hgt]

theorem sourceCountOf_append_subset (l1 l2 : List EnrichedSkill)
    (h : ∀ x ∈ l2, x.source ∈ l1.map (fun s => s.source)) :
    sourceCountOf (l1 ++ l2) = sourceCountOf l1 := by
  rw [sourceCountOf, sourceCountOf, length_uniqueList, length_uniqueList]
  congr 1
  ext a
  simp only [List.mem_toFinset, List.map_append, List.mem_append, List.mem_map]
  constructor
  · rintro (h1 | ⟨x, hx, rfl⟩)
    · exact h1
    · obtain ⟨y, hy, hys⟩ := List.mem_map.mp (h x hx)
      exact ⟨y, hy, hys⟩
  · exact fun h1 => Or.inl h1

theorem wSkills1900_length : wSkills1900.length = 1900 := by
  rw [wSkills1900, List.length_append, List.length_replicate, wDistinct100,
    List.length_map, List.length_range]

set_option maxRecDepth 8000 in
theorem wSkills1900_sourceCount : sourceCountOf wSkills1900 = 100 := by
  rw [wSkills1900, sourceCountOf_append_subset]
  · decide
  · intro x hx
    rw [List.eq_of_mem_replicate hx]
    decide

set_option maxRecDepth 8000 in
theorem wSkills1900_sample :
    (wSkills1900.take (min 100 wSkills1900.length)).filter isMalformed = [] := by
  rw [wSkills1900_length]
  have hmin : min 100 1900 = 100 := by norm_num
  have hd : wDistinct100.length = 100 := by
    rw [wDistinct100, List.length_map, List.length_range]
  rw [hmin, wSkills1900, ← hd, List.take_left]
  decide

set_option maxRecDepth 4000 in
theorem validator_drop_thresholds_witness :
    dropErrMsg 2000 900 50 ∈
      (validateScrapedData (List.replicate 900 wVSkill)
        ⟨none, none, none, some wPrev2000⟩).errors ∧
    (validateScrapedData (List.replicate 900 wVSkill)
        ⟨none, none, none, some wPrev2000⟩).valid = false ∧
    dropCheck 2000 1900 50 = ([], []) ∧
    (validateScrapedData wSkills1900
        ⟨none, none, none, some wPrev2000⟩).valid = true ∧
    dropCheck 2000 900 50 = ([dropErrMsg 2000 900 50], []) ∧
    dropCheck 2000 1780 50 = ([], [dropWarnMsg 2000 1780]) := by
  obtain ⟨p1, p2, p3⟩ := validator_drop_thresholds
  have h1 := p1 (List.replicate 900 wVSkill) wPrev2000 (List.length_replicate 900 wVSkill)
    (List.length_replicate 2000 wVSkill)
  have h2 := p2 wSkills1900 wPrev2000 wSkills1900_length
    (List.length_replicate 2000 wVSkill)
  have h3 := (p3 2000 900 50).1 (by norm_num [dropPct])
  have h4 := (p3 2000 1780 50).2 (by norm_num [dropPct]) (by norm_num [dropPct])
  refine ⟨h1.1, h1.2, h2.1,
    h2.2 (by rw [wSkills1900_sourceCount]; omega)
      (sampleCheck_eq_nil _ wSkills1900_sample), h3, h4⟩

/-! ### C9: scheduler interval floor -/

/-- C9 counterexample: starting the scheduler through the server's
`autoRefresh` path with a 1-minute configuration creates the timer at
60000 ms — below the claimed 5-minute floor, which only the admin route
applies. -/
theorem scheduler_floor_counterexample :
    (startRefreshScheduler ⟨none⟩
      ⟨some (serverAutoRefreshIntervalMs 1), some false⟩).refreshTimer =
        some 60000 ∧
    60000 < 5 * 60 * 1000 := by decide

/-- C9 (amended): the 5-minute floor is enforced only by the admin
scheduler-start route (`max(5, minutes) * 60000 ≥ 300000`);
`startRefreshScheduler` itself creates the timer at exactly the configured
`intervalMs` (default 30 minutes) with no floor, and the server
`autoRefresh` path passes `refreshIntervalMinutes * 60000` unfloored. -/
theorem scheduler_floor_amended :
    (∀ m : Int, 5 * 60 * 1000 ≤ adminStartIntervalMs m) ∧
    (∀ (ts : TimerState) (opts : RefreshSchedulerOptions),
      ts.refreshTimer = none →
      (startRefreshScheduler ts opts).refreshTimer =
        some (opts.intervalMs.getD (30 * 60 * 1000))) ∧
    (∀ mins : Nat, serverAutoRefreshIntervalMs mins = mins * 60 * 1000) := by
  refine ⟨?_, ?_, fun mins => rfl⟩
  · intro m
    rw [adminStartIntervalMs]
    have h5 : (5:Int) ≤ max 5 m := le_max_left 5 m
    have hmul := mul_le_mul_of_nonneg_right h5 (by norm_num : (0:Int) ≤ 60 * 1000)
    linarith [hmul]
  · intro ts opts h
    simp [startRefreshScheduler, h, schedulerIntervalMs]

theorem scheduler_floor_amended_witness :
    5 * 60 * 1000 ≤ adminStartIntervalMs (-3) ∧
    (startRefreshScheduler ⟨none⟩ ⟨some 1000, none⟩).refreshTimer = some 1000 := by
  obtain ⟨p1, p2, -⟩ := scheduler_floor_amended
  refine ⟨p1 (-3), ?_⟩
  rw [p2 ⟨none⟩ ⟨some 1000, none⟩ rfl]
  rfl

/-! ### C10: snapshot totals -/

theorem stale_filtered_subset (skills : List EnrichedSkill) (token : Option String)
    (cache : ValidationCache) (now : Nat) (fetch : String → Option (List String)) :
    ∀ x ∈ (filterStaleSkills skills token cache now fetch).1.filtered, x ∈ skills := by
  cases token with
  | none => intro x hx; exact hx
  | some t =>
    intro x hx
    rw [stale_filtered_eq] at hx
    rcases List.mem_append.mp hx with h1 | h2
    · obtain ⟨g, hg, hxg⟩ := mem_flatten_map _ _ _ h1
      exact mem_of_mem_group skills g (mem_staleCachedRepos skills cache now g hg).1
        (filterRepoSkills_kept_subset g.1 g.2 _ x hxg)
    · obtain ⟨g, hg, hxg⟩ := mem_flatten_map _ _ _ h2
      exact mem_of_mem_group skills g (mem_staleToCheck skills cache now g hg).1
        (checkKept_subset fetch g x hxg)

theorem refreshEnriched2_subset (env : RefreshEnv) (sk : List ScrapedSkill) :
    ∀ x ∈ refreshEnriched2 env sk, x ∈ enrichSkills sk := by
  rw [refreshEnriched2]
  split_ifs
  · intro x hx
    exact hx
  · exact stale_filtered_subset (enrichSkills sk) env.token env.cache env.now
      env.fetchDirs

/-- C10: the snapshot persisted by a successful refresh has
`totalSkills` equal to the length of its (reconciled) skills list, but
`totalSources`/`totalOwners` counted from the raw scraped list before
stale filtering; hence when reconciliation drops every skill of some
source, the snapshot's distinct-source count is strictly below its own
`totalSources`. -/
theorem refresh_snapshot_counts (st : SchedulerState) (env : RefreshEnv)
    (sk : List ScrapedSkill) (hrun : st.isRefreshing = false)
    (hscr : env.scraped = Except.ok sk)
    (hval : (refreshValidation env sk).valid = true) :
    ∀ snap, (refreshSkillsData st env).persisted = some snap →
      snap.totalSkills = snap.skills.length ∧
      snap.totalSources = (getUniqueSources sk).length ∧
      snap.totalOwners = (getUniqueOwners sk).length ∧
      snap.skills = refreshEnriched2 env sk ∧
      (∀ src, src ∈ sk.map (fun x => x.source) →
        src ∉ snap.skills.map (fun x => x.source) →
        (uniqueList (snap.skills.map (fun x => x.source))).length <
          snap.totalSources) := by
  intro snap hsnap
  have hpe : (refreshSkillsData st env).persisted =
      some ⟨env.nowIso, (refreshEnriched2 env sk).length,
        (getUniqueSources sk).length, (getUniqueOwners sk).length,
        refreshEnriched2 env sk⟩ := by
    simp [refreshSkillsData, hrun, hscr, hval]
  rw [hpe] at hsnap
  obtain rfl : snap = _ := (Option.some_inj.mp hsnap).symm
  refine ⟨rfl, rfl, rfl, rfl, ?_⟩
  intro src hsrc hnot
  simp only at hsrc hnot ⊢
  rw [length_uniqueList, getUniqueSources, length_sortStrings, length_uniqueList]
  apply Finset.card_lt_card
  have hsub : ((refreshEnriched2 env sk).map (fun x => x.source)).toFinset ⊆
      (sk.map (fun s => s.source)).toFinset := by
    intro a ha
    rw [List.mem_toFinset] at ha ⊢
    obtain ⟨x, hx, rfl⟩ := List.mem_map.mp ha
    have hxe : x ∈ enrichSkills sk := refreshEnriched2_subset env sk x hx
    obtain ⟨y, hy, rfl⟩ := List.mem_map.mp hxe
    exact List.mem_map.mpr ⟨y, hy, rfl⟩
  refine (Finset.ssubset_iff_of_subset hsub).mpr ⟨src, ?_, ?_⟩
  · exact List.mem_toFinset.mpr hsrc
  · intro hc
    exact hnot (List.mem_toFinset.mp hc)

/-! ### C10 witness: structural evaluation helpers -/

theorem enrich_sources (l : List ScrapedSkill) :
    (enrichSkills l).map (fun s => s.source) = l.map (fun s => s.source) := by
  rw [enrichSkills, List.map_map]
  rfl

theorem mem_insKey_self (acc : List String) (k : String) : k ∈ insKey acc k := by
  rw [insKey]
  split_ifs with h
  · exact h
  · exact List.mem_append_right acc (List.mem_singleton.mpr rfl)

theorem foldl_insKey_replicate (a : String) :
    ∀ (n : Nat) (acc : List String),
      (List.replicate (n + 1) a).foldl insKey acc = insKey acc a := by
  intro n
  induction n with
  | zero => intro acc; rfl
  | succ m ih =>
    intro acc
    rw [List.replicate_succ, List.foldl_cons, ih]
    rw [insKey, if_pos (mem_insKey_self acc a)]

theorem flatten_map_singleton {α β : Type} (g : α → β) :
    ∀ l : List α, (l.map (fun x => [g x])).flatten = l.map g := by
  intro l
  induction l with
  | nil => rfl
  | cons x xs ih => simp [ih]

theorem validate_errors_noprev (skills : List EnrichedSkill)
    (mS mC : Option Nat) (mD : Option ℚ) :
    (validateScrapedData skills ⟨mS, mC, mD, none⟩).errors =
      (if skills.length < mS.getD 1000 then
        [minSkillMsg skills.length (mS.getD 1000)] else []) ++
      (if sourceCountOf skills < mC.getD 100 then
        [minSourceMsg (sourceCountOf skills) (mC.getD 100)] else []) ++
      (if skills.length = 0 then [emptyMsg] else []) ++
      sampleCheck skills := by
  simp only [validateScrapedData]
  exact List.append_nil _

theorem regroup :
    ∀ gs : List (String × List EnrichedSkill),
      (gs.map Prod.fst).Nodup →
      (∀ g ∈ gs, ∀ x ∈ g.2, x.source = g.1) →
      ((gs.map Prod.fst).map (fun src =>
          ((gs.map Prod.snd).flatten).filter (fun x => x.source == src))).flatten =
        (gs.map Prod.snd).flatten := by
  intro gs
  induction gs with
  | nil => intro _ _; rfl
  | cons g gs ih =>
    intro hnodup hsrc
    obtain ⟨k, b⟩ := g
    simp only [List.map_cons, List.flatten_cons, List.nodup_cons] at hnodup ⊢
    obtain ⟨hk, hnd⟩ := hnodup
    have hb : b.filter (fun x => x.source == k) = b := by
      apply List.filter_eq_self.mpr
      intro x hx
      have := hsrc (k, b) (List.mem_cons_self _ _) x hx
      simp [this]
    have hrest0 : ((gs.map Prod.snd).flatten).filter (fun x => x.source == k) = [] := by
      apply List.filter_eq_nil_iff.mpr
      intro x hx
      obtain ⟨g', hg', hxg⟩ := mem_flatten_map Prod.snd gs x hx
      have hxs := hsrc g' (List.mem_cons_of_mem _ hg') x hxg
      simp only [hxs, Bool.not_eq_true, beq_eq_false_iff_ne, ne_eq]
      intro hc
      exact hk (hc ▸ List.mem_map.mpr ⟨g', hg', rfl⟩)
    have hinner : (gs.map Prod.fst).map (fun src =>
          (b ++ (gs.map Prod.snd).flatten).filter (fun x => x.source == src)) =
        (gs.map Prod.fst).map (fun src =>
          ((gs.map Prod.snd).flatten).filter (fun x => x.source == src)) := by
      apply List.map_congr_left
      intro src hsrcmem
      rw [List.filter_append]
      have hbfil : b.filter (fun x => x.source == src) = [] := by
        apply List.filter_eq_nil_iff.mpr
        intro x hx
        have hxs := hsrc (k, b) (List.mem_cons_self _ _) x hx
        simp only [hxs, Bool.not_eq_true, beq_eq_false_iff_ne, ne_eq]
        intro hc
        exact hk (hc ▸ hsrcmem)
      rw [hbfil, List.nil_append]
    rw [List.filter_append, hb, hrest0, List.append_nil, hinner,
      ih hnd (fun g' hg' => hsrc g' (List.mem_cons_of_mem _ hg'))]

theorem wC10_sources :
    (enrichSkills wRaw1001).map (fun s => s.source) =
      List.replicate 901 "s0/r" ++ (wTailKeys ++ ["drop/me"]) := by
  rw [enrich_sources, wRaw1001, wRawKept, List.map_append, List.map_append,
    List.map_replicate, List.append_assoc, wRawTail, List.map_map, wTailKeys]
  rfl

set_option maxRecDepth 4000 in
theorem wC10_keys :
    uniqueList ((enrichSkills wRaw1001).map (fun s => s.source)) =
      wKeptKeys ++ ["drop/me"] := by
  rw [wC10_sources, uniqueList, List.foldl_append,
    show (901 : Nat) = 900 + 1 from rfl, foldl_insKey_replicate]
  decide

set_option maxRecDepth 4000 in
theorem wC10_keysne : ∀ src ∈ wKeptKeys, (src == "drop/me") = false := by decide

theorem wC10_group :
    groupBySource (enrichSkills wRaw1001) =
      (wKeptKeys ++ ["drop/me"]).map
        (fun src => (src,
          (enrichSkills wRaw1001).filter (fun x => x.source == src))) := by
  rw [groupBySource, wC10_keys]

theorem wC10_groups_fst : wGroups.map Prod.fst = wKeptKeys := by
  rw [wGroups, List.map_cons, List.map_map, wKeptKeys, wTailKeys]
  rfl

theorem wC10_groups_snd :
    (wGroups.map Prod.snd).flatten = enrichSkills wRawKept := by
  rw [wGroups, List.map_cons, List.map_map, List.flatten_cons]
  have h1 : ((List.range 99).map
      (Prod.snd ∘ fun i => (("s" ++ toString (i + 1) ++ "/r" : String),
        [enrichOne ⟨"s" ++ toString (i + 1) ++ "/r", "k", "n", 5⟩]))).flatten =
      (List.range 99).map
        (fun i => enrichOne ⟨"s" ++ toString (i + 1) ++ "/r", "k", "n", 5⟩) :=
    flatten_map_singleton _ (List.range 99)
  rw [h1, wRawKept, enrichSkills, List.map_append, List.map_replicate,
    wRawTail, List.map_map]
  rfl

set_option maxRecDepth 4000 in
theorem wC10_groups_nodup : (wGroups.map Prod.fst).Nodup := by
  rw [wC10_groups_fst]
  decide

theorem wC10_groups_src : ∀ g ∈ wGroups, ∀ x ∈ g.2, x.source = g.1 := by
  intro g hg x hx
  rw [wGroups] at hg
  rcases List.mem_cons.mp hg with rfl | hg2
  · rw [List.eq_of_mem_replicate hx]
    rfl
  · obtain ⟨i, _, rfl⟩ := List.mem_map.mp hg2
    rw [List.mem_singleton.mp hx]
    rfl

theorem wC10_cached_nil :
    staleCachedRepos (enrichSkills wRaw1001) [] 0 = [] := by
  rw [staleCachedRepos]
  apply List.filter_eq_nil_iff.mpr
  intro g _
  rw [show isFreshCached [] 0 g.1 = false from rfl]
  simp

theorem wC10_tocheck :
    staleToCheck (enrichSkills wRaw1001) [] 0 =
      groupBySource (enrichSkills wRaw1001) := by
  rw [staleToCheck]
  apply List.filter_eq_self.mpr
  intro g _
  rfl

theorem wC10_filtered :
    refreshEnriched2 wEnvC10 wRaw1001 = enrichSkills wRawKept := by
  have hskip : (refreshStale wEnvC10 wRaw1001).1.skipped = false := rfl
  simp only [refreshEnriched2, hskip, Bool.false_eq_true, if_false]
  rw [show refreshStale wEnvC10 wRaw1001 =
    filterStaleSkills (enrichSkills wRaw1001) (some "t") [] 0 wFetch from rfl]
  rw [stale_filtered_eq, wC10_cached_nil, wC10_tocheck, wC10_group]
  simp only [List.map_nil, List.flatten_nil, List.nil_append, List.map_map]
  rw [List.map_append, List.flatten_append]
  have hdropnil : ((["drop/me"] : List String).map
      (checkKept wFetch ∘ fun src => (src,
        (enrichSkills wRaw1001).filter (fun x => x.source == src)))).flatten =
      ([] : List EnrichedSkill) := rfl
  rw [hdropnil, List.append_nil]
  have hE : enrichSkills wRaw1001 =
      enrichSkills wRawKept ++ [enrichOne wRawDrop] := by
    rw [wRaw1001, enrichSkills, enrichSkills, List.map_append]
    rfl
  have hcongr : wKeptKeys.map
      (checkKept wFetch ∘ fun src => (src,
        (enrichSkills wRaw1001).filter (fun x => x.source == src))) =
      wKeptKeys.map (fun src =>
        (enrichSkills wRawKept).filter (fun x => x.source == src)) := by
    apply List.map_congr_left
    intro src hmem
    have hne := wC10_keysne src hmem
    have hf : wFetch src = none := by
      simp [wFetch, hne]
    have hdropf : ([enrichOne wRawDrop]).filter (fun x => x.source == src) = [] := by
      have hsym : ((enrichOne wRawDrop).source == src) = false := by
        rw [show (enrichOne wRawDrop).source = "drop/me" from rfl]
        rw [beq_eq_false_iff_ne] at hne ⊢
        exact fun hc => hne hc.symm
      simp [List.filter, hsym]
    simp only [Function.comp_apply, checkKept, hf]
    rw [hE, List.filter_append, hdropf, List.append_nil]
  rw [hcongr]
  have hreg := regroup wGroups wC10_groups_nodup wC10_groups_src
  rw [wC10_groups_fst, wC10_groups_snd] at hreg
  exact hreg

theorem wC10_len : (enrichSkills wRawKept).length = 1000 := by
  rw [enrichSkills, List.length_map, wRawKept, List.length_append,
    List.length_replicate, wRawTail, List.length_map, List.length_range]

set_option maxRecDepth 4000 in
theorem wC10_sourceCount : sourceCountOf (enrichSkills wRawKept) = 100 := by
  rw [sourceCountOf, enrich_sources, wRawKept, List.map_append,
    List.map_replicate, uniqueList, List.foldl_append,
    show (901 : Nat) = 900 + 1 from rfl, foldl_insKey_replicate]
  decide

set_option maxRecDepth 4000 in
theorem wC10_sample : sampleCheck (enrichSkills wRawKept) = [] := by
  apply sampleCheck_eq_nil
  rw [wC10_len, show min 100 1000 = 100 from by norm_num]
  rw [enrichSkills, wRawKept, List.map_append, List.map_replicate]
  rw [List.take_append_of_le_length (by rw [List.length_replicate]; norm_num)]
  rw [List.take_replicate, show min 100 901 = 100 from by norm_num]
  decide

set_option maxRecDepth 4000 in
theorem wC10_valid : (refreshValidation wEnvC10 wRaw1001).valid = true := by
  rw [refreshValidation, wC10_filtered,
    show refreshOptions wEnvC10 = ⟨some 1000, some 100, some 50, none⟩ from rfl,
    validate_valid_eq_isEmpty, validate_errors_noprev, wC10_len,
    wC10_sourceCount, wC10_sample]
  decide

theorem wC10_src_mem : "drop/me" ∈ wRaw1001.map (fun x => x.source) := by
  rw [wRaw1001, List.map_append]
  apply List.mem_append_right
  decide

set_option maxRecDepth 4000 in
theorem wC10_src_not_mem :
    "drop/me" ∉ (refreshEnriched2 wEnvC10 wRaw1001).map (fun x => x.source) := by
  rw [wC10_filtered, enrich_sources, wRawKept, List.map_append,
    List.map_replicate]
  intro hc
  rcases List.mem_append.mp hc with h1 | h2
  · exact absurd (List.eq_of_mem_replicate h1) (by decide)
  · rw [wRawTail, List.map_map] at h2
    exact absurd h2 (by decide)

theorem refresh_snapshot_counts_witness :
    (refreshValidation wEnvC10 wRaw1001).valid = true ∧
    "drop/me" ∈ wRaw1001.map (fun x => x.source) ∧
    "drop/me" ∉ (refreshEnriched2 wEnvC10 wRaw1001).map (fun x => x.source) ∧
    (uniqueList ((refreshEnriched2 wEnvC10 wRaw1001).map
        (fun x => x.source))).length <
      (getUniqueSources wRaw1001).length := by
  have hgen : ∀ env : RefreshEnv, env.scraped = Except.ok wRaw1001 →
      env.nowIso = "ts" → (refreshValidation env wRaw1001).valid = true →
      (refreshSkillsData ⟨false, none⟩ env).persisted =
        some ⟨"ts", (refreshEnriched2 env wRaw1001).length,
          (getUniqueSources wRaw1001).length, (getUniqueOwners wRaw1001).length,
          refreshEnriched2 env wRaw1001⟩ := by
    intro env hscr hiso hval
    simp [refreshSkillsData, hscr, hiso, hval]
  have hp : (refreshSkillsData ⟨false, none⟩ wEnvC10).persisted =
      some wSnapC10 := by
    rw [wSnapC10]
    exact hgen wEnvC10 rfl rfl wC10_valid
  have h := refresh_snapshot_counts ⟨false, none⟩ wEnvC10 wRaw1001 rfl rfl
    wC10_valid wSnapC10 hp
  obtain ⟨-, h2, -, h4, h5⟩ := h
  rw [h4, h2] at h5
  exact ⟨wC10_valid, wC10_src_mem, wC10_src_not_mem,
    h5 "drop/me" wC10_src_mem wC10_src_not_mem⟩

theorem reconciler_no_token_noop_witness :
    filterStaleSkills [⟨"o/r", "a", "a", 1, "o", "r", "", "A"⟩] none
        [("o/r", ⟨0, ["a"]⟩)] 7 (fun _ => some ["x"]) =
      (⟨[⟨"o/r", "a", "a", 1, "o", "r", "", "A"⟩], 0, [], 0, true⟩,
       [("o/r", ⟨0, ["a"]⟩)]) :=
  reconciler_no_token_noop [⟨"o/r", "a", "a", 1, "o", "r", "", "A"⟩]
    [("o/r", ⟨0, ["a"]⟩)] 7 (fun _ => some ["x"])

theorem validator_empty_rejects_witness :
    (validateScrapedData [] ⟨some 5, some 5, some 5, none⟩).valid = false ∧
    emptyMsg ∈ (validateScrapedData [] ⟨some 5, some 5, some 5, none⟩).errors :=
  validator_empty_rejects ⟨some 5, some 5, some 5, none⟩
